import Mathlib

/-!
Verification of the Divine Wrath frontend ZK claim pipeline:
the local claim evaluator (`verifyClaimLocally`), the proof
orchestration (`generateClaimProof`), the byte codec
(`decimalToBytes32`, `g1PointToBytes`, `g2PointToBytes`,
`convertSnarkjsProofToContract`) and the proof transport
(`serializeProof` / `deserializeProof`).
-/

namespace DivineWrath

/-- Errors of the pipeline: the evaluator throws on an out-of-range
position; the external prover may fail. -/
inductive ZkError where
  | invalidPosition
  | proverFailure
deriving DecidableEq, Repr

instance {ε α : Type} [DecidableEq ε] [DecidableEq α] : DecidableEq (Except ε α) := fun a b =>
  match a, b with
  | .ok x, .ok y =>
    if h : x = y then .isTrue (by simp [h]) else .isFalse (by simp [h])
  | .ok _, .error _ => .isFalse (by simp)
  | .error _, .ok _ => .isFalse (by simp)
  | .error x, .error y =>
    if h : x = y then .isTrue (by simp [h]) else .isFalse (by simp [h])

/-- JavaScript `%` on integers: truncated remainder, sign of the dividend. -/
def jsRem (a b : Int) : Int := a - b * (Int.tdiv a b)

/-- JavaScript `Math.floor(a / b)` on integers (b > 0): floor division. -/
def jsFloorDiv (a b : Int) : Int := Int.fdiv a b

/-- Embedding of `verifyClaimLocally` (src/src/hooks/usePlayerData.ts):
validates the position, computes row/column of the position, then
switches on the claim type; the `default` branch returns `false`. -/
def verifyClaimLocally (position : Int) (claimType : String)
    (claimValue : Int) : Except ZkError Bool :=
  if position < 1 ∨ position > 9 then
    .error .invalidPosition
  else
    let row := jsFloorDiv (position - 1) 3
    let col := jsRem (position - 1) 3
    if claimType = "row" then
      .ok (decide (row = claimValue))
    else if claimType = "column" then
      .ok (decide (col = claimValue))
    else if claimType = "adjacent" then
      let otherRow := jsFloorDiv (claimValue - 1) 3
      let otherCol := jsRem (claimValue - 1) 3
      let rowDiff := |row - otherRow|
      let colDiff := |col - otherCol|
      .ok (decide ((rowDiff = 1 ∧ colDiff = 0) ∨ (rowDiff = 0 ∧ colDiff = 1)))
    else
      .ok false

end DivineWrath

namespace DivineWrath

/-- Claim C3: for positions p, q in [1,9], the Adjacent claim is true iff
the taxicab distance between the two cells is exactly 1 (orthogonal
neighbours only); in particular evaluate(5, Adjacent, 2) = true and
evaluate(5, Adjacent, 1) = false. -/
theorem claim_C3 (p q : Int) (hp1 : 1 ≤ p) (hp9 : p ≤ 9) (hq1 : 1 ≤ q) (hq9 : q ≤ 9) :
    (verifyClaimLocally p "adjacent" q = .ok true ↔
      |Int.fdiv (p - 1) 3 - Int.fdiv (q - 1) 3| +
        |(p - 1) % 3 - (q - 1) % 3| = 1) ∧
    verifyClaimLocally 5 "adjacent" 2 = .ok true ∧
    verifyClaimLocally 5 "adjacent" 1 = .ok false := by
  refine ⟨?_, by decide, by decide⟩
  interval_cases p <;> interval_cases q <;> decide

theorem claim_C3_witness :
    verifyClaimLocally 5 "adjacent" 2 = .ok true :=
  (claim_C3 5 2 (by decide) (by decide) (by decide) (by decide)).2.1

/-- Claim C4: for p in [1,9] and v in [0,2], the Row claim is true iff
⌊(p−1)/3⌋ = v and the Column claim is true iff (p−1) mod 3 = v; in
particular evaluate(5, Row, 1) = true and evaluate(5, Row, 0) = false. -/
theorem claim_C4 (p v : Int) (hp1 : 1 ≤ p) (hp9 : p ≤ 9) (hv0 : 0 ≤ v) (hv2 : v ≤ 2) :
    (verifyClaimLocally p "row" v = .ok true ↔ Int.fdiv (p - 1) 3 = v) ∧
    (verifyClaimLocally p "column" v = .ok true ↔ (p - 1) % 3 = v) ∧
    verifyClaimLocally 5 "row" 1 = .ok true ∧
    verifyClaimLocally 5 "row" 0 = .ok false := by
  refine ⟨?_, ?_, by decide, by decide⟩ <;>
    (interval_cases p <;> interval_cases v <;> decide)

theorem claim_C4_witness :
    verifyClaimLocally 5 "row" 1 = .ok true :=
  (claim_C4 5 1 (by decide) (by decide) (by decide) (by decide)).2.2.1

/-- Claim C5, counterexample: on a claim type that is none of the three
enum variants the evaluator does NOT fail; it returns the boolean false. -/
theorem claim_C5_counterexample :
    verifyClaimLocally 1 "diagonal" 0 = Except.ok false ∧
    (verifyClaimLocally 1 "diagonal" 0).isOk = true := by decide

/-- Claim C5, amended: for every position in [1,9] and every claim type
that is not one of the three enum variants, evaluate returns the boolean
false (the switch falls through to the default branch) instead of failing
with an UnsupportedClaimType error. -/
theorem claim_C5 (p : Int) (ct : String) (v : Int) (hp1 : 1 ≤ p) (hp9 : p ≤ 9)
    (h1 : ct ≠ "row") (h2 : ct ≠ "column") (h3 : ct ≠ "adjacent") :
    verifyClaimLocally p ct v = .ok false := by
  have hp : ¬(p < 1 ∨ p > 9) := by omega
  simp [verifyClaimLocally, hp, h1, h2, h3]

theorem claim_C5_witness :
    verifyClaimLocally 1 "diag" 5 = .ok false :=
  claim_C5 1 "diag" 5 (by decide) (by decide) (by decide) (by decide) (by decide)

/-- Claim C9: for any claim type and claim value, a position outside
[1,9] makes evaluate fail with the invalid-position error, and for a
position inside [1,9] that error is never raised. -/
theorem claim_C9 (p : Int) (ct : String) (v : Int) :
    ((p < 1 ∨ p > 9) → verifyClaimLocally p ct v = .error .invalidPosition) ∧
    (1 ≤ p → p ≤ 9 → verifyClaimLocally p ct v ≠ .error .invalidPosition) := by
  constructor
  · intro h
    simp [verifyClaimLocally, h]
  · intro h1 h9
    have hp : ¬(p < 1 ∨ p > 9) := by omega
    simp only [verifyClaimLocally, hp, if_false, ite_false]
    split
    · simp
    · split
      · simp
      · split <;> simp

theorem claim_C9_witness :
    verifyClaimLocally 0 "row" 0 = .error .invalidPosition ∧
    verifyClaimLocally 5 "row" 0 ≠ .error .invalidPosition :=
  ⟨(claim_C9 0 "row" 0).1 (by decide),
   (claim_C9 5 "row" 0).2 (by decide) (by decide)⟩

/-- Claim C10: for p in [1,9] the Adjacent evaluation is total for every
integer claim value v, including out-of-range ones: it never fails, and
returns the boolean of the row/column-difference formula applied to v
(with JavaScript floor-division and remainder semantics); in particular
evaluate(p, Adjacent, p) = false. -/
theorem claim_C10 (p v : Int) (hp1 : 1 ≤ p) (hp9 : p ≤ 9) :
    verifyClaimLocally p "adjacent" v =
      .ok (decide
        ((|Int.fdiv (p - 1) 3 - Int.fdiv (v - 1) 3| = 1 ∧
            |jsRem (p - 1) 3 - jsRem (v - 1) 3| = 0) ∨
         (|Int.fdiv (p - 1) 3 - Int.fdiv (v - 1) 3| = 0 ∧
            |jsRem (p - 1) 3 - jsRem (v - 1) 3| = 1))) ∧
    verifyClaimLocally p "adjacent" p = .ok false := by
  have hp : ¬(p < 1 ∨ p > 9) := by omega
  constructor
  · simp [verifyClaimLocally, hp, jsFloorDiv]
  · simp [verifyClaimLocally, hp, jsFloorDiv, sub_self]

theorem claim_C10_witness :
    verifyClaimLocally 5 "adjacent" 5 = .ok false :=
  (claim_C10 5 5 (by decide) (by decide)).2

end DivineWrath

namespace DivineWrath

/-- `BigInt(decimal)` on a non-negative decimal digit string. -/
def parseDecimal (s : String) : Nat :=
  s.data.foldl (fun n c => n * 10 + (c.toNat - 48)) 0

/-- The filling loop of `decimalToBytes32` (src/unnamed/part_009): for
byte index i from high down to 0, bytes[i] = num & 0xFF; num >>= 8. -/
def beBytes : Nat → Nat → List Nat → List Nat
  | 0, _, acc => acc
  | k + 1, num, acc => beBytes k (num / 256) (num % 256 :: acc)

/-- Embedding of `decimalToBytes32`: 32-byte big-endian encoding of the
decimal string's value. -/
def decimalToBytes32 (decimal : String) : List Nat :=
  beBytes 32 (parseDecimal decimal) []

/-- Big-endian value of a byte list. -/
def beValue (bs : List Nat) : Nat :=
  bs.foldl (fun a b => a * 256 + b) 0

theorem beBytes_append (k : Nat) :
    ∀ num acc, beBytes k num acc = beBytes k num [] ++ acc := by
  induction k with
  | zero => intro num acc; simp [beBytes]
  | succ k ih =>
    intro num acc
    rw [beBytes, beBytes, ih (num / 256) (num % 256 :: acc),
      ih (num / 256) [num % 256]]
    simp

theorem beBytes_length (k : Nat) :
    ∀ num acc, (beBytes k num acc).length = k + acc.length := by
  induction k with
  | zero => intro num acc; simp [beBytes]
  | succ k ih => intro num acc; rw [beBytes, ih]; simp; omega

theorem length_decimalToBytes32 (s : String) :
    (decimalToBytes32 s).length = 32 := by
  rw [decimalToBytes32, beBytes_length]
  rfl

theorem beValue_append_singleton (bs : List Nat) (b : Nat) :
    beValue (bs ++ [b]) = beValue bs * 256 + b := by
  simp [beValue, List.foldl_append]

theorem mod_pow_split (num k : Nat) :
    num % 256 ^ (k + 1) = (num / 256 % 256 ^ k) * 256 + num % 256 := by
  have h1 := (Nat.div_add_mod (num % 256 ^ (k + 1)) 256).symm
  have h2 : num % 256 ^ (k + 1) / 256 = num / 256 % 256 ^ k := by
    rw [pow_succ']
    exact Nat.mod_mul_right_div_self num 256 (256 ^ k)
  have h3 : num % 256 ^ (k + 1) % 256 = num % 256 :=
    Nat.mod_mod_of_dvd num (dvd_pow_self 256 (Nat.succ_ne_zero k))
  omega

theorem beValue_beBytes (k : Nat) :
    ∀ num, beValue (beBytes k num []) = num % 256 ^ k := by
  induction k with
  | zero => intro num; simp [beBytes, beValue, Nat.mod_one]
  | succ k ih =>
    intro num
    rw [beBytes, beBytes_append, beValue_append_singleton, ih, mod_pow_split]

theorem beBytes_lt (k : Nat) :
    ∀ num acc, (∀ b ∈ acc, b < 256) → ∀ b ∈ beBytes k num acc, b < 256 := by
  induction k with
  | zero => intro num acc hacc; simpa [beBytes] using hacc
  | succ k ih =>
    intro num acc hacc
    rw [beBytes]
    refine ih (num / 256) _ ?_
    intro b hb
    rcases List.mem_cons.mp hb with h | h
    · omega
    · exact hacc b h

/-- A contract-side Groth16 proof: three fixed-width byte buffers. -/
structure ContractGroth16Proof where
  a : List Nat
  b : List Nat
  c : List Nat
deriving DecidableEq, Repr

/-- A snarkjs Groth16 proof: decimal-string curve points plus the
protocol/curve tags. -/
structure SnarkjsProof where
  pi_a : List String
  pi_b : List (List String)
  pi_c : List String
  protocol : String
  curve : String
deriving DecidableEq, Repr

/-- Embedding of `g1PointToBytes`: x (32 bytes) followed by y (32 bytes). -/
def g1PointToBytes (point : List String) : List Nat :=
  decimalToBytes32 (point.getD 0 "0") ++ decimalToBytes32 (point.getD 1 "0")

/-- Embedding of `g2PointToBytes`: per axis, imaginary part before real
part: x_imag ‖ x_real ‖ y_imag ‖ y_real. -/
def g2PointToBytes (point : List (List String)) : List Nat :=
  decimalToBytes32 ((point.getD 0 []).getD 1 "0") ++
  decimalToBytes32 ((point.getD 0 []).getD 0 "0") ++
  decimalToBytes32 ((point.getD 1 []).getD 1 "0") ++
  decimalToBytes32 ((point.getD 1 []).getD 0 "0")

/-- Embedding of `convertSnarkjsProofToContract`. -/
def convertSnarkjsProofToContract (proof : SnarkjsProof) : ContractGroth16Proof :=
  { a := g1PointToBytes proof.pi_a
    b := g2PointToBytes proof.pi_b
    c := g1PointToBytes proof.pi_c }

/-- Claim C1: `g2PointToBytes` emits, per axis, the imaginary part before
the real part: decimalToBytes32(x_imag) ‖ decimalToBytes32(x_real) ‖
decimalToBytes32(y_imag) ‖ decimalToBytes32(y_real), 128 bytes in all;
in particular on [["1","2"],["3","4"]] it returns bytes32("2") ‖
bytes32("1") ‖ bytes32("4") ‖ bytes32("3") byte for byte. -/
theorem claim_C1 (xr xi yr yi : String) :
    g2PointToBytes [[xr, xi], [yr, yi]] =
      decimalToBytes32 xi ++ decimalToBytes32 xr ++
      decimalToBytes32 yi ++ decimalToBytes32 yr ∧
    (g2PointToBytes [[xr, xi], [yr, yi]]).length = 128 ∧
    g2PointToBytes [["1", "2"], ["3", "4"]] =
      decimalToBytes32 "2" ++ decimalToBytes32 "1" ++
      decimalToBytes32 "4" ++ decimalToBytes32 "3" ∧
    g2PointToBytes [["1", "2"], ["3", "4"]] =
      (List.replicate 31 0 ++ [2]) ++ (List.replicate 31 0 ++ [1]) ++
      (List.replicate 31 0 ++ [4]) ++ (List.replicate 31 0 ++ [3]) := by
  refine ⟨rfl, ?_, rfl, by decide⟩
  simp [g2PointToBytes, length_decimalToBytes32]

set_option maxRecDepth 4000 in
/-- Claim C2: `decimalToBytes32` of a non-negative decimal digit string
is exactly 32 bytes, the big-endian, left-zero-padded encoding of the
value's low 256 bits (values at or above 2^256 are truncated modulo
2^256, not rejected); the fixed vectors for "0", "255" and 2^256 − 1
hold. -/
theorem claim_C2 (s : String) (hs : s.data.all Char.isDigit = true) :
    (decimalToBytes32 s).length = 32 ∧
    beValue (decimalToBytes32 s) = parseDecimal s % 2 ^ 256 ∧
    (∀ b ∈ decimalToBytes32 s, b < 256) ∧
    decimalToBytes32 "0" = List.replicate 32 0 ∧
    decimalToBytes32 "255" = List.replicate 31 0 ++ [255] ∧
    decimalToBytes32
        "115792089237316195423570985008687907853269984665640564039457584007913129639935" =
      List.replicate 32 255 := by
  refine ⟨length_decimalToBytes32 s, ?_, ?_, by decide, by decide, by decide⟩
  · have h : (256 : ℕ) ^ 32 = 2 ^ 256 := by norm_num
    rw [decimalToBytes32, beValue_beBytes, h]
  · intro b hb
    exact beBytes_lt 32 (parseDecimal s) [] (by simp) b hb

theorem claim_C2_witness :
    (String.data "255").all Char.isDigit = true ∧
    (decimalToBytes32 "255").length = 32 :=
  ⟨by decide, (claim_C2 "255" (by decide)).1⟩

/-- Claim C7: `convertSnarkjsProofToContract` is the pure composition
a = g1ToBytes(pi_a), b = g2ToBytes(pi_b), c = g1ToBytes(pi_c), with
g1ToBytes the plain x-then-y concatenation (no reordering); the
resulting buffers are exactly 64, 128 and 64 bytes. -/
theorem claim_C7 (pf : SnarkjsProof) :
    convertSnarkjsProofToContract pf =
      { a := g1PointToBytes pf.pi_a
        b := g2PointToBytes pf.pi_b
        c := g1PointToBytes pf.pi_c } ∧
    (∀ x y rest, g1PointToBytes (x :: y :: rest) =
      decimalToBytes32 x ++ decimalToBytes32 y) ∧
    (convertSnarkjsProofToContract pf).a.length = 64 ∧
    (convertSnarkjsProofToContract pf).b.length = 128 ∧
    (convertSnarkjsProofToContract pf).c.length = 64 := by
  refine ⟨rfl, fun x y rest => rfl, ?_, ?_, ?_⟩ <;>
    simp [convertSnarkjsProofToContract, g1PointToBytes, g2PointToBytes,
      length_decimalToBytes32]

end DivineWrath

namespace DivineWrath

/-- `CLAIM_TYPE_MAP` of the ZK module: row ↦ 0, column ↦ 1,
adjacent ↦ 2; undefined (`none`) for any other string. -/
def CLAIM_TYPE_MAP (ct : String) : Option Nat :=
  if ct = "row" then some 0
  else if ct = "column" then some 1
  else if ct = "adjacent" then some 2
  else none

/-- Inputs handed to the external circuit prover. -/
structure CircuitInputs where
  position : Int
  claimType : Option Nat
  claimValue : Int
  expectedResult : Nat
deriving DecidableEq, Repr

/-- Output of the external prover `snarkjs.groth16.fullProve`. -/
structure ProveResult where
  proof : SnarkjsProof
  publicSignals : List String
deriving DecidableEq, Repr

/-- Return value of `generateClaimProof`. -/
structure ClaimProofResult where
  proof : SnarkjsProof
  publicSignals : List String
  isTrue : Bool
deriving DecidableEq, Repr

/-- Embedding of `generateClaimProof`
(src/src/hooks/usePlayerData.ts): evaluates the claim locally first,
builds the circuit inputs with expectedResult taken from that local
verdict, invokes the external prover, and returns its proof and public
signals together with the locally computed isTrue. The external prover
is a parameter and may fail. -/
def generateClaimProof (fullProve : CircuitInputs → Except ZkError ProveResult)
    (position : Int) (claimType : String) (claimValue : Int) :
    Except ZkError ClaimProofResult :=
  match verifyClaimLocally position claimType claimValue with
  | .error e => .error e
  | .ok isTrueVal =>
    match fullProve
        ({ position := position
           claimType := CLAIM_TYPE_MAP claimType
           claimValue := claimValue
           expectedResult := if isTrueVal then 1 else 0 } : CircuitInputs) with
    | .error e => .error e
    | .ok r =>
      .ok { proof := r.proof, publicSignals := r.publicSignals, isTrue := isTrueVal }

theorem generateClaimProof_ok_isTrue
    (fullProve : CircuitInputs → Except ZkError ProveResult)
    (p : Int) (ct : String) (v : Int) (res : ClaimProofResult)
    (h : generateClaimProof fullProve p ct v = .ok res) :
    verifyClaimLocally p ct v = .ok res.isTrue := by
  cases hv : verifyClaimLocally p ct v with
  | error e => simp [generateClaimProof, hv] at h
  | ok b =>
    simp only [generateClaimProof, hv] at h
    cases hf : fullProve
        { position := p, claimType := CLAIM_TYPE_MAP ct, claimValue := v,
          expectedResult := if b then 1 else 0 } with
    | error e => rw [hf] at h; simp at h
    | ok r =>
      rw [hf] at h
      simp only [Except.ok.injEq] at h
      rw [← h]

/-- Claim C6: whenever `generateClaimProof` succeeds, the `isTrue` field
of its result is exactly the local evaluator's verdict on the same
inputs, and it is independent of the external prover: any two provers
that succeed yield the same `isTrue`. -/
theorem claim_C6 (fullProve : CircuitInputs → Except ZkError ProveResult)
    (p : Int) (ct : String) (v : Int) (res : ClaimProofResult)
    (h : generateClaimProof fullProve p ct v = .ok res) :
    verifyClaimLocally p ct v = .ok res.isTrue ∧
    ∀ fullProve' res', generateClaimProof fullProve' p ct v = .ok res' →
      res'.isTrue = res.isTrue := by
  have h1 := generateClaimProof_ok_isTrue fullProve p ct v res h
  refine ⟨h1, fun fullProve' res' h' => ?_⟩
  have h2 := generateClaimProof_ok_isTrue fullProve' p ct v res' h'
  rw [h1] at h2
  exact (Except.ok.inj h2).symm

/-- A fixed snarkjs proof value used as a test fixture. -/
def proofFixture : SnarkjsProof :=
  { pi_a := ["1", "2", "1"]
    pi_b := [["1", "2"], ["3", "4"], ["1", "0"]]
    pi_c := ["5", "6", "1"]
    protocol := "groth16"
    curve := "bn128" }

/-- A prover stub that always succeeds with the fixture proof. -/
def constProver : CircuitInputs → Except ZkError ProveResult :=
  fun _ => .ok { proof := proofFixture, publicSignals := ["1"] }

theorem claim_C6_witness :
    verifyClaimLocally 5 "column" 1 = .ok true :=
  (claim_C6 constProver 5 "column" 1
    { proof := proofFixture, publicSignals := ["1"], isTrue := true } rfl).1

end DivineWrath

namespace DivineWrath

/-- The opening brace character, written via its code point. -/
def lbrace : Char := Char.ofNat 123

/-- The closing brace character, written via its code point. -/
def rbrace : Char := Char.ofNat 125

/-- The JSON value subset exchanged by the proof transport: strings,
arrays and objects (the shape of a serialized snarkjs proof). -/
inductive Json where
  | str (s : String)
  | arr (elems : List Json)
  | obj (fields : List (String × Json))
deriving Repr

mutual
/-- `JSON.stringify` (no indentation) of a JSON value, as its character
stream; member strings are assumed to need no escaping (`wfString`). -/
def jsonChars : Json → List Char
  | .str s => '"' :: (s.data ++ ['"'])
  | .arr es => '[' :: (elemsChars es ++ [']'])
  | .obj fs => lbrace :: (fieldsChars fs ++ [rbrace])

/-- Characters of a comma-separated array body. -/
def elemsChars : List Json → List Char
  | [] => []
  | j :: rest => jsonChars j ++ sepElems rest

/-- Characters of the remaining array elements, each preceded by a comma. -/
def sepElems : List Json → List Char
  | [] => []
  | j :: rest => ',' :: (jsonChars j ++ sepElems rest)

/-- Characters of one object member: quoted key, colon, value. -/
def fieldChars : String × Json → List Char
  | (k, j) => '"' :: (k.data ++ '"' :: ':' :: jsonChars j)

/-- Characters of a comma-separated object body. -/
def fieldsChars : List (String × Json) → List Char
  | [] => []
  | f :: rest => fieldChars f ++ sepFields rest

/-- Characters of the remaining object members, each preceded by a comma. -/
def sepFields : List (String × Json) → List Char
  | [] => []
  | f :: rest => ',' :: (fieldChars f ++ sepFields rest)
end

/-- Reads a string body up to the closing quote; fails at end of input. -/
def parseStringBody : List Char → Option (List Char × List Char)
  | [] => none
  | c :: rest =>
    if c = '"' then some ([], rest)
    else
      match parseStringBody rest with
      | none => none
      | some (cs, r) => some (c :: cs, r)

mutual
/-- Fuel-bounded recursive-descent reader for the JSON subset: the model
of `JSON.parse` on the sublanguage produced by `JSON.stringify` above. -/
def parseValue : Nat → List Char → Option (Json × List Char)
  | 0, _ => none
  | fuel + 1, input =>
    match input with
    | [] => none
    | c :: rest =>
      if c = '"' then
        match parseStringBody rest with
        | none => none
        | some (cs, r) => some (.str (String.mk cs), r)
      else if c = '[' then
        match rest with
        | [] => none
        | c2 :: r2 =>
          if c2 = ']' then some (.arr [], r2)
          else
            match parseElems fuel rest with
            | none => none
            | some (es, r) => some (.arr es, r)
      else if c = lbrace then
        match rest with
        | [] => none
        | c2 :: r2 =>
          if c2 = rbrace then some (.obj [], r2)
          else
            match parseFields fuel rest with
            | none => none
            | some (fs, r) => some (.obj fs, r)
      else none

/-- Reads one or more comma-separated array elements and the closing
bracket. -/
def parseElems : Nat → List Char → Option (List Json × List Char)
  | 0, _ => none
  | fuel + 1, input =>
    match parseValue fuel input with
    | none => none
    | some (j, rest) =>
      match rest with
      | [] => none
      | c :: r =>
        if c = ',' then
          match parseElems fuel r with
          | none => none
          | some (es, r2) => some (j :: es, r2)
        else if c = ']' then some ([j], r)
        else none

/-- Reads one or more comma-separated object members and the closing
brace. -/
def parseFields : Nat → List Char → Option (List (String × Json) × List Char)
  | 0, _ => none
  | fuel + 1, input =>
    match input with
    | [] => none
    | c :: rest =>
      if c = '"' then
        match parseStringBody rest with
        | none => none
        | some (key, r1) =>
          match r1 with
          | [] => none
          | c1 :: r2 =>
            if c1 = ':' then
              match parseValue fuel r2 with
              | none => none
              | some (j, r3) =>
                match r3 with
                | [] => none
                | c2 :: r4 =>
                  if c2 = ',' then
                    match parseFields fuel r4 with
                    | none => none
                    | some (fs, r5) => some ((String.mk key, j) :: fs, r5)
                  else if c2 = rbrace then some ([(String.mk key, j)], r4)
                  else none
            else none
      else none
end

/-- The JSON document tree of a snarkjs Groth16 proof object, with the
object members in JavaScript insertion order. -/
def proofToJson (p : SnarkjsProof) : Json :=
  .obj [("pi_a", .arr (p.pi_a.map .str)),
        ("pi_b", .arr (p.pi_b.map (fun row => .arr (row.map .str)))),
        ("pi_c", .arr (p.pi_c.map .str)),
        ("protocol", .str p.protocol),
        ("curve", .str p.curve)]

/-- Embedding of `serializeProof`: `JSON.stringify(proof)`. -/
def serializeProof (p : SnarkjsProof) : String :=
  String.mk (jsonChars (proofToJson p))

/-- Reads a list of JSON strings as the list of their contents. -/
def strListOfJson : List Json → Option (List String)
  | [] => some []
  | .str s :: rest =>
    match strListOfJson rest with
    | some l => some (s :: l)
    | none => none
  | _ :: _ => none

/-- Reads a JSON array of strings. -/
def jsonToStringList : Json → Option (List String)
  | .arr es => strListOfJson es
  | _ => none

/-- Reads a list of JSON arrays of strings as a matrix of strings. -/
def rowsOfJson : List Json → Option (List (List String))
  | [] => some []
  | j :: rest =>
    match jsonToStringList j, rowsOfJson rest with
    | some row, some rows => some (row :: rows)
    | _, _ => none

/-- Reads a JSON array of arrays of strings. -/
def jsonToStringMatrix : Json → Option (List (List String))
  | .arr rows => rowsOfJson rows
  | _ => none

/-- Reads a parsed JSON document as a snarkjs Groth16 proof record. -/
def jsonToProof : Json → Option SnarkjsProof
  | .obj [(k1, a), (k2, b), (k3, c), (k4, .str prot), (k5, .str cur)] =>
    if k1 = "pi_a" ∧ k2 = "pi_b" ∧ k3 = "pi_c" ∧ k4 = "protocol" ∧ k5 = "curve" then
      match jsonToStringList a, jsonToStringMatrix b, jsonToStringList c with
      | some pa, some pb, some pc =>
        some { pi_a := pa, pi_b := pb, pi_c := pc, protocol := prot, curve := cur }
      | _, _, _ => none
    else none
  | _ => none

/-- `JSON.parse` on the transport strings: reads one value and requires
the input to be fully consumed. -/
def parseJson (s : String) : Option Json :=
  match parseValue s.data.length s.data with
  | some (j, []) => some j
  | _ => none

/-- Embedding of `deserializeProof`: `JSON.parse(serialized)` read back
as a Groth16 proof record. -/
def deserializeProof (s : String) : Option SnarkjsProof :=
  match parseJson s with
  | some j => jsonToProof j
  | none => none

/-- A character survives `JSON.stringify` unescaped: printable, not a
quote, not a backslash. -/
def wfChar (c : Char) : Bool :=
  decide (32 ≤ c.toNat) && !(c = '"') && !(c = '\\')

/-- A string whose serialization needs no escaping. -/
def wfString (s : String) : Bool := s.data.all wfChar

/-- A well-formed proof value: every member string needs no escaping. -/
def wfProof (p : SnarkjsProof) : Bool :=
  p.pi_a.all wfString && p.pi_b.all (fun row => row.all wfString) &&
  p.pi_c.all wfString && wfString p.protocol && wfString p.curve

mutual
/-- Node-count measure of a JSON value, used as parser fuel. -/
def jsize : Json → Nat
  | .str _ => 1
  | .arr es => 1 + esize es
  | .obj fs => 1 + fsize fs

/-- Fuel measure of an array body. -/
def esize : List Json → Nat
  | [] => 0
  | j :: rest => 1 + jsize j + esize rest

/-- Fuel measure of an object body. -/
def fsize : List (String × Json) → Nat
  | [] => 0
  | f :: rest => 1 + jsize f.2 + fsize rest
end

mutual
/-- Well-formed JSON value: every string member needs no escaping. -/
def wfJ : Json → Bool
  | .str s => wfString s
  | .arr es => wfE es
  | .obj fs => wfF fs

/-- Well-formed array body. -/
def wfE : List Json → Bool
  | [] => true
  | j :: rest => wfJ j && wfE rest

/-- Well-formed object body: keys and values are well formed. -/
def wfF : List (String × Json) → Bool
  | [] => true
  | f :: rest => wfString f.1 && wfJ f.2 && wfF rest
end

theorem jsize_pos (j : Json) : 1 ≤ jsize j := by
  cases j <;> simp [jsize]

theorem esize_pos (es : List Json) (h : es ≠ []) : 1 ≤ esize es := by
  cases es with
  | nil => exact absurd rfl h
  | cons j rest => simp [esize]; omega

theorem fsize_pos (fs : List (String × Json)) (h : fs ≠ []) : 1 ≤ fsize fs := by
  cases fs with
  | nil => exact absurd rfl h
  | cons f rest => simp [fsize]; omega

theorem wfString_no_quote (s : String) (h : wfString s = true) :
    ∀ c ∈ s.data, ¬(c = '"') := by
  intro c hc hq
  have hall := List.all_eq_true.mp h c hc
  rw [hq] at hall
  simp [wfChar] at hall

theorem parseStringBody_spec (cs : List Char) (h : ∀ c ∈ cs, ¬(c = '"')) :
    ∀ rest, parseStringBody (cs ++ '"' :: rest) = some (cs, rest) := by
  induction cs with
  | nil => intro rest; simp [parseStringBody]
  | cons c cs ih =>
    intro rest
    have hc : ¬(c = '"') := h c (List.mem_cons_self c cs)
    simp only [List.cons_append, parseStringBody, if_neg hc, List.append_eq]
    rw [ih (fun c' hc' => h c' (List.mem_cons_of_mem _ hc')) rest]

theorem jsonChars_head (j : Json) :
    ∃ c cs, jsonChars j = c :: cs ∧ ¬(c = ']') ∧ ¬(c = rbrace) := by
  cases j with
  | str s => exact ⟨'"', _, rfl, by decide, by decide⟩
  | arr es => exact ⟨'[', _, rfl, by decide, by decide⟩
  | obj fs => exact ⟨lbrace, _, rfl, by decide, by decide⟩

theorem length_jsonChars_str (s : String) :
    (jsonChars (.str s)).length = s.data.length + 2 := by
  simp [jsonChars]

theorem length_jsonChars_arr (es : List Json) :
    (jsonChars (.arr es)).length = (elemsChars es).length + 2 := by
  simp [jsonChars]

theorem length_jsonChars_obj (fs : List (String × Json)) :
    (jsonChars (.obj fs)).length = (fieldsChars fs).length + 2 := by
  simp [jsonChars]

theorem length_elemsChars_cons (j : Json) (rest : List Json) :
    (elemsChars (j :: rest)).length = (jsonChars j).length + (sepElems rest).length := by
  simp [elemsChars]

theorem length_sepElems_cons (j : Json) (rest : List Json) :
    (sepElems (j :: rest)).length =
      (jsonChars j).length + (sepElems rest).length + 1 := by
  simp [sepElems]

theorem length_fieldChars (k : String) (jv : Json) :
    (fieldChars (k, jv)).length = k.data.length + (jsonChars jv).length + 3 := by
  simp [fieldChars]
  omega

theorem length_fieldsChars_cons (f : String × Json) (rest : List (String × Json)) :
    (fieldsChars (f :: rest)).length =
      (fieldChars f).length + (sepFields rest).length := by
  simp [fieldsChars]

theorem length_sepFields_cons (f : String × Json) (rest : List (String × Json)) :
    (sepFields (f :: rest)).length =
      (fieldChars f).length + (sepFields rest).length + 1 := by
  simp [sepFields]

/-- The fuel measure of a value is bounded by the length of its
serialization, so the input length is always enough fuel. -/
theorem size_le (n : Nat) :
    (∀ j, jsize j ≤ n → jsize j ≤ (jsonChars j).length) ∧
    (∀ es, esize es ≤ n → esize es ≤ (sepElems es).length ∧
      esize es ≤ (elemsChars es).length + 1) ∧
    (∀ fs, fsize fs ≤ n → fsize fs ≤ (sepFields fs).length ∧
      fsize fs ≤ (fieldsChars fs).length + 1) := by
  induction n with
  | zero =>
    refine ⟨?_, ?_, ?_⟩
    · intro j hj; have := jsize_pos j; omega
    · intro es hes
      cases es with
      | nil => simp [esize, sepElems, elemsChars]
      | cons j rest =>
        have := jsize_pos j
        have hsz : esize (j :: rest) = 1 + jsize j + esize rest := rfl
        omega
    · intro fs hfs
      cases fs with
      | nil => simp [fsize, sepFields, fieldsChars]
      | cons f rest =>
        have := jsize_pos f.2
        have hsz : fsize (f :: rest) = 1 + jsize f.2 + fsize rest := rfl
        omega
  | succ n ih =>
    obtain ⟨ihJ, ihE, ihF⟩ := ih
    refine ⟨?_, ?_, ?_⟩
    · intro j hj
      cases j with
      | str s => simp [jsize, length_jsonChars_str]
      | arr es =>
        have hsz : jsize (.arr es) = 1 + esize es := rfl
        have h2 := (ihE es (by omega)).2
        rw [hsz, length_jsonChars_arr]
        omega
      | obj fs =>
        have hsz : jsize (.obj fs) = 1 + fsize fs := rfl
        have h2 := (ihF fs (by omega)).2
        rw [hsz, length_jsonChars_obj]
        omega
    · intro es hes
      cases es with
      | nil => simp [esize, sepElems, elemsChars]
      | cons j rest =>
        have hsz : esize (j :: rest) = 1 + jsize j + esize rest := rfl
        have hjp := jsize_pos j
        have h1 := ihJ j (by omega)
        have h2 := (ihE rest (by omega)).1
        rw [hsz, length_sepElems_cons, length_elemsChars_cons]
        omega
    · intro fs hfs
      cases fs with
      | nil => simp [fsize, sepFields, fieldsChars]
      | cons f rest =>
        obtain ⟨k, jv⟩ := f
        have hsz : fsize ((k, jv) :: rest) = 1 + jsize jv + fsize rest := rfl
        have hjp := jsize_pos jv
        have h1 := ihJ jv (by omega)
        have h2 := (ihF rest (by omega)).1
        rw [hsz, length_sepFields_cons, length_fieldsChars_cons, length_fieldChars]
        omega

/-- Parsing inverts printing: a printed value followed by any suffix
parses back to that value leaving the suffix, given fuel at least the
value's node count. -/
theorem parse_print (fuel : Nat) :
    (∀ j rest, wfJ j = true → jsize j ≤ fuel →
      parseValue fuel (jsonChars j ++ rest) = some (j, rest)) ∧
    (∀ es rest, wfE es = true → es ≠ [] → esize es ≤ fuel →
      parseElems fuel (elemsChars es ++ ']' :: rest) = some (es, rest)) ∧
    (∀ fs rest, wfF fs = true → fs ≠ [] → fsize fs ≤ fuel →
      parseFields fuel (fieldsChars fs ++ rbrace :: rest) = some (fs, rest)) := by
  induction fuel with
  | zero =>
    refine ⟨?_, ?_, ?_⟩
    · intro j rest _ hsz; have := jsize_pos j; omega
    · intro es rest _ hne hsz; have := esize_pos es hne; omega
    · intro fs rest _ hne hsz; have := fsize_pos fs hne; omega
  | succ fuel ih =>
    obtain ⟨ihV, ihE, ihF⟩ := ih
    refine ⟨?_, ?_, ?_⟩
    · intro j rest hwf hsz
      cases j with
      | str s =>
        have hq := wfString_no_quote s (by simpa [wfJ] using hwf)
        show parseValue (fuel + 1)
          (('"' :: (s.data ++ ['"'])) ++ rest) = some (.str s, rest)
        rw [List.cons_append, List.append_assoc, List.singleton_append]
        simp only [parseValue]
        rw [if_true]
        simp only [parseStringBody_spec s.data hq]
      | arr es =>
        cases es with
        | nil =>
          show parseValue (fuel + 1) ('[' :: ']' :: rest) = some (.arr [], rest)
          simp only [parseValue]
          rw [if_neg (by decide), if_true, if_true]
        | cons e es2 =>
          have hwf2 : wfJ e = true ∧ wfE es2 = true := by
            simpa [wfJ, wfE, Bool.and_eq_true] using hwf
          have hsz2 : esize (e :: es2) ≤ fuel := by
            have h : jsize (.arr (e :: es2)) = 1 + esize (e :: es2) := rfl
            omega
          obtain ⟨c, cs, hc, hcne, _⟩ := jsonChars_head e
          have hshape : elemsChars (e :: es2) ++ (']' :: rest) =
              c :: (cs ++ (sepElems es2 ++ ']' :: rest)) := by
            simp [elemsChars, hc, List.append_assoc]
          have hpe : parseElems fuel (c :: (cs ++ (sepElems es2 ++ ']' :: rest))) =
              some (e :: es2, rest) := by
            rw [← hshape]
            exact ihE (e :: es2) rest (by simp [wfE, hwf2.1, hwf2.2]) (by simp) hsz2
          show parseValue (fuel + 1)
            ('[' :: ((elemsChars (e :: es2) ++ [']']) ++ rest)) =
              some (.arr (e :: es2), rest)
          rw [List.append_assoc, List.singleton_append]
          simp only [parseValue]
          rw [if_neg (by decide), if_true]
          simp only [hshape]
          rw [if_neg hcne, hpe]
      | obj fs =>
        cases fs with
        | nil =>
          show parseValue (fuel + 1) (lbrace :: rbrace :: rest) = some (.obj [], rest)
          simp only [parseValue]
          rw [if_neg (by decide), if_neg (by decide), if_true, if_true]
        | cons f fs2 =>
          have hsz2 : fsize (f :: fs2) ≤ fuel := by
            have h : jsize (.obj (f :: fs2)) = 1 + fsize (f :: fs2) := rfl
            omega
          have hshape : fieldsChars (f :: fs2) ++ (rbrace :: rest) =
              '"' :: ((f.1.data ++ '"' :: ':' :: jsonChars f.2) ++
                (sepFields fs2 ++ rbrace :: rest)) := by
            obtain ⟨k, jv⟩ := f
            simp [fieldsChars, fieldChars, List.append_assoc]
          have hpf : parseFields fuel
              ('"' :: ((f.1.data ++ '"' :: ':' :: jsonChars f.2) ++
                (sepFields fs2 ++ rbrace :: rest))) = some (f :: fs2, rest) := by
            rw [← hshape]
            exact ihF (f :: fs2) rest
              (by simpa [wfJ, wfF, Bool.and_eq_true, and_assoc] using hwf)
              (by simp) hsz2
          show parseValue (fuel + 1)
            (lbrace :: ((fieldsChars (f :: fs2) ++ [rbrace]) ++ rest)) =
              some (.obj (f :: fs2), rest)
          rw [List.append_assoc, List.singleton_append]
          simp only [parseValue]
          rw [if_neg (by decide), if_neg (by decide), if_true]
          simp only [hshape]
          rw [if_neg (by decide), hpf]
    · intro es rest hwf hne hsz
      cases es with
      | nil => exact absurd rfl hne
      | cons e es2 =>
        have hwf2 : wfJ e = true ∧ wfE es2 = true := by
          simpa [wfE, Bool.and_eq_true] using hwf
        have hszE : esize (e :: es2) = 1 + jsize e + esize es2 := rfl
        show parseElems (fuel + 1)
          ((jsonChars e ++ sepElems es2) ++ (']' :: rest)) = some (e :: es2, rest)
        rw [List.append_assoc]
        simp only [parseElems]
        simp only [ihV e (sepElems es2 ++ ']' :: rest) hwf2.1 (by omega)]
        cases es2 with
        | nil =>
          simp only [sepElems, List.nil_append]
          rw [if_neg (by decide), if_true]
        | cons e2 es3 =>
          have hshape : sepElems (e2 :: es3) ++ ']' :: rest =
              ',' :: (elemsChars (e2 :: es3) ++ ']' :: rest) := by
            simp [sepElems, elemsChars, List.append_assoc]
          simp only [hshape]
          rw [if_true,
            ihE (e2 :: es3) rest (by simpa [wfE] using hwf2.2) (by simp) (by omega)]
    · intro fs rest hwf hne hsz
      cases fs with
      | nil => exact absurd rfl hne
      | cons f fs2 =>
        obtain ⟨k, jv⟩ := f
        have hwf2 : wfString k = true ∧ wfJ jv = true ∧ wfF fs2 = true := by
          simpa [wfF, Bool.and_eq_true, and_assoc] using hwf
        have hq := wfString_no_quote k hwf2.1
        have hszF : fsize ((k, jv) :: fs2) = 1 + jsize jv + fsize fs2 := rfl
        show parseFields (fuel + 1)
          (('"' :: (k.data ++ '"' :: ':' :: jsonChars jv) ++ sepFields fs2) ++
            (rbrace :: rest)) = some ((k, jv) :: fs2, rest)
        have hshape : ('"' :: (k.data ++ '"' :: ':' :: jsonChars jv) ++
            sepFields fs2) ++ (rbrace :: rest) =
            '"' :: (k.data ++ '"' ::
              (':' :: (jsonChars jv ++ (sepFields fs2 ++ rbrace :: rest)))) := by
          simp [List.append_assoc]
        rw [hshape]
        simp only [parseFields]
        rw [if_true]
        simp only [parseStringBody_spec k.data hq]
        rw [if_true]
        simp only [ihV jv (sepFields fs2 ++ rbrace :: rest) hwf2.2.1 (by omega)]
        cases fs2 with
        | nil =>
          simp only [sepFields, List.nil_append]
          rw [if_neg (by decide), if_true]
        | cons f2 fs3 =>
          have hshape2 : sepFields (f2 :: fs3) ++ rbrace :: rest =
              ',' :: (fieldsChars (f2 :: fs3) ++ rbrace :: rest) := by
            simp [sepFields, fieldsChars, List.append_assoc]
          simp only [hshape2]
          rw [if_true,
            ihF (f2 :: fs3) rest (by simpa [wfF] using hwf2.2.2) (by simp) (by omega)]

/-- Parsing a full serialized document recovers the document. -/
theorem parseJson_stringify (j : Json) (hwf : wfJ j = true) :
    parseJson (String.mk (jsonChars j)) = some j := by
  have hfuel : jsize j ≤ (jsonChars j).length :=
    (size_le (jsonChars j).length).1 j
      ((size_le (jsize j)).1 j (le_refl _) |> fun h => le_trans (le_refl _) h)
  have h := (parse_print (jsonChars j).length).1 j [] hwf hfuel
  rw [List.append_nil] at h
  unfold parseJson
  simp only [h]

theorem strListOfJson_map (l : List String) :
    strListOfJson (l.map .str) = some l := by
  induction l with
  | nil => rfl
  | cons s l ih => simp only [List.map_cons, strListOfJson, ih]

theorem jsonToStringList_map_str (l : List String) :
    jsonToStringList (.arr (l.map .str)) = some l := by
  simp only [jsonToStringList, strListOfJson_map]

theorem jsonToStringMatrix_map (m : List (List String)) :
    jsonToStringMatrix (.arr (m.map (fun row => .arr (row.map .str)))) = some m := by
  simp only [jsonToStringMatrix]
  induction m with
  | nil => rfl
  | cons row m ih => simp only [List.map_cons, rowsOfJson, jsonToStringList_map_str, ih]

/-- Reading back the document tree of a proof yields the proof. -/
theorem jsonToProof_proofToJson (p : SnarkjsProof) :
    jsonToProof (proofToJson p) = some p := by
  simp only [proofToJson, jsonToProof]
  rw [if_pos (by simp)]
  simp only [jsonToStringList_map_str, jsonToStringMatrix_map]

theorem wfE_map_str (l : List String) (h : l.all wfString = true) :
    wfE (l.map .str) = true := by
  induction l with
  | nil => rfl
  | cons s l ih =>
    simp only [List.all_cons, Bool.and_eq_true] at h
    simp [wfE, wfJ, h.1, ih h.2]

theorem wfE_map_matrix (m : List (List String))
    (h : m.all (fun row => row.all wfString) = true) :
    wfE (m.map (fun row => .arr (row.map .str))) = true := by
  induction m with
  | nil => rfl
  | cons row m ih =>
    simp only [List.all_cons, Bool.and_eq_true] at h
    simp [wfE, wfJ, wfE_map_str row h.1, ih h.2]

/-- A well-formed proof serializes to a well-formed document. -/
theorem wfJ_proofToJson (p : SnarkjsProof) (hp : wfProof p = true) :
    wfJ (proofToJson p) = true := by
  unfold wfProof at hp
  simp only [Bool.and_eq_true] at hp
  obtain ⟨⟨⟨⟨ha, hb⟩, hc⟩, hprot⟩, hcur⟩ := hp
  simp [proofToJson, wfJ, wfF, wfE_map_str _ ha, wfE_map_matrix _ hb,
    wfE_map_str _ hc, hprot, hcur]
  all_goals decide

/-- Claim C8: the proof transport round-trips: deserializing a
serialized well-formed proof value yields the value back, and
re-serializing what was deserialized from a serializer-produced string
yields that very string. -/
theorem claim_C8 (p : SnarkjsProof) (hp : wfProof p = true) :
    deserializeProof (serializeProof p) = some p ∧
    ∀ s, s = serializeProof p →
      Option.map serializeProof (deserializeProof s) = some s := by
  have h1 : deserializeProof (serializeProof p) = some p := by
    unfold deserializeProof serializeProof
    rw [parseJson_stringify (proofToJson p) (wfJ_proofToJson p hp)]
    exact jsonToProof_proofToJson p
  refine ⟨h1, fun s hs => ?_⟩
  subst hs
  rw [h1]
  rfl

theorem claim_C8_witness :
    wfProof proofFixture = true ∧
    deserializeProof (serializeProof proofFixture) = some proofFixture :=
  ⟨by decide, (claim_C8 proofFixture (by decide)).1⟩

end DivineWrath


